import Mathlib

/-!
Verification of the site-crawler subsystem (lib/crawler.js): URL
normalization and classification, link extraction, the bounded-concurrency
runner, BFS discovery, site-level aggregation, and the crawl orchestrator.

Modelling conventions (shallow embedding):
* JS strings that are inspected character-by-character (URL paths, hosts)
  are `List Char`; other strings stay `String`.
* A parsed WHATWG URL is a `JsUrl` record; functions that in the source
  parse a URL string receive the parsed record (their unparseable-input
  branches are noted where relevant).
* Network effects (fetch, audit) are oracles passed in as parameters;
  the cooperative single-threaded event loop of JS is modelled by the
  deterministic order in which those oracles are consulted (all shared
  state in the source is mutated only between await points).
* JS numbers arising here are natural numbers (page counts, scores after
  the clamp at 0, issue counts); `Math.round` of a nonnegative quotient is
  the half-up rounding `(2*s + n) / (2*n)` in Nat arithmetic, which agrees
  with the floating-point computation on this domain (quotients of
  naturals bounded by 20000/200 are never within a double ulp of a
  half-integer without being exactly one).
-/

-- ─────────────────────────────────────────
-- JS string helpers on List Char
-- ─────────────────────────────────────────

/-- JS String.prototype.toLowerCase on an ASCII string (hosts and paths
here are ASCII after URL parsing): lowercase each character. -/
def lowerStr (s : List Char) : List Char := s.map Char.toLower

/-- JS String.prototype.trim: drop ASCII whitespace from both ends. -/
def trimStr (s : List Char) : List Char :=
  ((s.dropWhile Char.isWhitespace).reverse.dropWhile Char.isWhitespace).reverse

-- ─────────────────────────────────────────
-- URL data model
-- ─────────────────────────────────────────

/-- A parsed WHATWG URL, as produced by `new URL(...)` in the source:
scheme (protocol without the colon), hostname, pathname, search
parameters in order, and the fragment. -/
structure JsUrl where
  scheme : String
  host : List Char
  path : List Char
  query : List (String × String)
  fragment : Option String
deriving DecidableEq

/-- Maximum pages to crawl per site (source constant MAX_PAGES). -/
def MAX_PAGES : Nat := 200

/-- How many pages to fetch simultaneously (source constant CONCURRENCY). -/
def CONCURRENCY : Nat := 3

/-- Extensions that are skipped (source constant SKIP_EXTENSIONS). -/
def SKIP_EXTENSIONS : List (List Char) :=
  [".jpg", ".jpeg", ".png", ".gif", ".webp", ".svg", ".ico",
   ".pdf", ".zip", ".tar", ".gz",
   ".mp4", ".mp3", ".wav", ".ogg",
   ".woff", ".woff2", ".ttf", ".eot",
   ".css", ".js", ".json", ".xml",
   ".map", ".ts"].map String.data

/-- Path prefixes that are skipped (source constant SKIP_PATHS). -/
def SKIP_PATHS : List (List Char) :=
  ["/cdn-cgi/", "/wp-json/", "/api/", "/_next/", "/static/",
   "/.well-known/"].map String.data

/-- Tracking query parameters removed by normalization. -/
def trackingParams : List String :=
  ["utm_source", "utm_medium", "utm_campaign", "utm_term", "utm_content",
   "ref", "fbclid", "gclid"]

/-- The trailing-slash step of normalizeUrl: remove a trailing slash from
the path unless the path is exactly the root. -/
def stripTrailingSlash (p : List Char) : List Char :=
  if 1 < p.length ∧ p.getLast? = some '/' then p.dropLast else p

/-- normalizeUrl from the source, on a parsed URL: drop the fragment,
delete the tracking parameters, lowercase the host, strip a single
trailing slash from a non-root path.  (The unparseable-input branch of
the source returns its argument unchanged; records are always parsed.) -/
def normalizeUrl (u : JsUrl) : JsUrl :=
  { scheme := u.scheme
    host := lowerStr u.host
    path := stripTrailingSlash u.path
    query := u.query.filter (fun kv => !(trackingParams.contains kv.1))
    fragment := none }

/-- Strip one leading "www." (the anchored regex replace in the source). -/
def stripWww (s : List Char) : List Char :=
  if ("www.".data).isPrefixOf s then s.drop 4 else s

/-- isSameDomain from the source: compare hosts lowercased and
www-stripped, accepting equality or a subdomain of the base. -/
def isSameDomain (u : JsUrl) (baseDomain : List Char) : Bool :=
  let host := stripWww (lowerStr u.host)
  let base := stripWww (lowerStr baseDomain)
  host = base || ('.' :: base).isSuffixOf host

/-- The suffix of the path from its last dot, for a path containing a
dot; the JS expression path.substring(path.lastIndexOf(.)). -/
def suffixFromLastDot : List Char → List Char
  | [] => []
  | c :: rest =>
    if '.' ∈ rest then suffixFromLastDot rest
    else if c = '.' then c :: rest
    else suffixFromLastDot rest

/-- path.substring(path.lastIndexOf('.')): the whole path when there is
no dot (lastIndexOf returns -1 and substring clamps it to 0). -/
def lastDotSuffix (p : List Char) : List Char :=
  if '.' ∈ p then suffixFromLastDot p else p

/-- shouldSkipUrl from the source, on a parsed URL: skip by extension,
by path prefix, or by non-http(s) scheme.  (The scheme test in the
source checks the serialized URL for the prefixes http:// and https://,
which on a serialized parsed URL is exactly a scheme test; the
unparseable branch returns true and is unreachable for parsed records.) -/
def shouldSkipUrl (u : JsUrl) : Bool :=
  let path := lowerStr u.path
  if SKIP_EXTENSIONS.contains (lastDotSuffix path) then true
  else if SKIP_PATHS.any (fun pre => pre.isPrefixOf path) then true
  else if !(u.scheme = "http" || u.scheme = "https") then true
  else false

-- ─────────────────────────────────────────
-- Link extraction
-- ─────────────────────────────────────────

/-- One anchor tag found by the href regex of extractInternalLinks:
the raw href text, and the outcome of resolving it against the page URL
(`new URL(href, pageUrl)`; none when resolution throws).  URL resolution
itself is outside the model, so each fetched page's oracle supplies its
anchors with their resolutions. -/
structure Anchor where
  href : List Char
  resolved : Option JsUrl
deriving DecidableEq

/-- The pre-resolution filter of extractInternalLinks: empty,
fragment-only, javascript:, mailto: and tel: hrefs are dropped. -/
def anchorRejected (href : List Char) : Bool :=
  href.isEmpty || ("#".data).isPrefixOf href ||
    ("javascript:".data).isPrefixOf href ||
    ("mailto:".data).isPrefixOf href || ("tel:".data).isPrefixOf href

/-- Insertion into a JS Set represented as an insertion-ordered
duplicate-free list. -/
def setAdd (l : List JsUrl) (u : JsUrl) : List JsUrl :=
  if u ∈ l then l else l ++ [u]

/-- The loop body of extractInternalLinks for one anchor: trim the href,
drop rejected ones, resolve (a throw contributes nothing), normalize, and
keep the link only when same-domain and unskipped. -/
def extractStep (baseDomain : List Char) (acc : List JsUrl) (a : Anchor) :
    List JsUrl :=
  let h := trimStr a.href
  if anchorRejected h then acc
  else
    match a.resolved with
    | none => acc
    | some u =>
      let n := normalizeUrl u
      if isSameDomain n baseDomain && !shouldSkipUrl n then setAdd acc n
      else acc

/-- extractInternalLinks from the source: the anchor loop over a fresh
set, returned in insertion order. -/
def extractInternalLinks (anchors : List Anchor) (baseDomain : List Char) :
    List JsUrl :=
  anchors.foldl (extractStep baseDomain) []

-- ─────────────────────────────────────────
-- Bounded concurrency runner
-- ─────────────────────────────────────────

/-- The outcome stored by runWithConcurrency for one item: the value of
fn when the call resolves, or the object with an error message when the
call throws (the catch branch). -/
inductive RwcRes (β : Type) where
  | val (b : β)
  | errObj (msg : String)
deriving DecidableEq

/-- Denotation of one guarded call `try results[i] = await fn(items[i])
catch err results[i] = error object`. -/
def rwcDenote {β : Type} (c : Except String β) : RwcRes β :=
  match c with
  | .ok b => .val b
  | .error m => .errObj m

/-- Shared state of the runner: the results array (none is an unfilled
slot of `new Array(n)`) and the shared claim counter. -/
structure RwcState (β : Type) where
  results : List (Option (RwcRes β))
  index : Nat

/-- One worker turn: claim the next unclaimed index and complete the call
for it.  All interleavings of the source's workers perform exactly these
turns in counter order (claiming is synchronous between await points), so
which worker acts is irrelevant to the state. -/
def rwcStep {α β : Type} (items : List α) (fn : α → Except String β)
    (s : RwcState β) : RwcState β :=
  match items[s.index]? with
  | some it => { results := s.results.set s.index (some (rwcDenote (fn it)))
                 index := s.index + 1 }
  | none => s

/-- Iterate worker turns. -/
def rwcRun {α β : Type} (items : List α) (fn : α → Except String β) :
    Nat → RwcState β → RwcState β
  | 0, s => s
  | fuel + 1, s => rwcRun items fn fuel (rwcStep items fn s)

/-- runWithConcurrency from the source: with `min limit items.length`
workers; zero workers leave every slot of the preallocated results array
unfilled (Promise.all of no workers resolves at once), otherwise the
workers drain the shared counter and fill every slot. -/
def runWithConcurrency {α β : Type} (items : List α) (limit : Nat)
    (fn : α → Except String β) : List (Option (RwcRes β)) :=
  if min limit items.length = 0 then List.replicate items.length none
  else (rwcRun items fn items.length
    { results := List.replicate items.length none, index := 0 }).results

-- ─────────────────────────────────────────
-- BFS discovery
-- ─────────────────────────────────────────

/-- Outcome of one discovery-phase fetch of a URL: a network failure /
timeout (the catch branch), or a response with its final post-redirect
URL, whether the content-type is HTML, and the anchors of the body. -/
inductive FetchRes where
  | failure
  | page (finalUrl : JsUrl) (isHtml : Bool) (anchors : List Anchor)

/-- The links contributed by one batch URL in discoverUrls: an already
visited URL, a failed fetch, a non-HTML response, and a response whose
final URL left the domain all contribute nothing. -/
def fetchLinks (fetch : JsUrl → FetchRes) (baseDomain : List Char)
    (url : JsUrl) : List JsUrl :=
  match fetch url with
  | .failure => []
  | .page finalUrl isHtml anchors =>
    if !isHtml then []
    else if !isSameDomain finalUrl baseDomain then []
    else extractInternalLinks anchors baseDomain

/-- State of the BFS loop, plus the list of progress reports made so far
(each report is the pair passed to onProgress: discovered size, queue
length). -/
structure BfsState where
  visited : List JsUrl
  discovered : List JsUrl
  queue : List JsUrl
  events : List (Nat × Nat)

/-- One batch member: check and mark `visited` (this happens
synchronously before the first await, in batch order), then contribute
its links. -/
def batchStep (fetch : JsUrl → FetchRes) (baseDomain : List Char)
    (acc : List JsUrl × List (List JsUrl)) (url : JsUrl) :
    List JsUrl × List (List JsUrl) :=
  if url ∈ acc.1 then (acc.1, acc.2 ++ [[]])
  else (acc.1 ++ [url], acc.2 ++ [fetchLinks fetch baseDomain url])

/-- Per-batch fetching: returns the updated visited set and the link
lists in batch order (Promise.allSettled preserves order; the worker
never rejects). -/
def processBatch (fetch : JsUrl → FetchRes) (baseDomain : List Char)
    (visited : List JsUrl) (batch : List JsUrl) :
    List JsUrl × List (List JsUrl) :=
  batch.foldl (batchStep fetch baseDomain) (visited, [])

/-- Merging one discovered link: enqueue only if new and under the page
cap (the per-link size check of the source). -/
def mergeLink (dq : List JsUrl × List JsUrl) (link : JsUrl) :
    List JsUrl × List JsUrl :=
  if link ∉ dq.1 ∧ dq.1.length < MAX_PAGES then
    (dq.1 ++ [link], dq.2 ++ [link])
  else dq

/-- Merging the links of one fetched page. -/
def mergeLinks (dq : List JsUrl × List JsUrl) (links : List JsUrl) :
    List JsUrl × List JsUrl :=
  links.foldl mergeLink dq

/-- One iteration (level) of the BFS loop body. -/
def bfsStep (fetch : JsUrl → FetchRes) (baseDomain : List Char)
    (s : BfsState) : BfsState :=
  let batch := s.queue.take CONCURRENCY
  let rest := s.queue.drop CONCURRENCY
  let vl := processBatch fetch baseDomain s.visited batch
  let dq := vl.2.foldl mergeLinks (s.discovered, rest)
  { visited := vl.1
    discovered := dq.1
    queue := dq.2
    events := s.events ++ [(dq.1.length, dq.2.length)] }

/-- The BFS loop with its termination condition, fuelled.  The source
loop runs at most 201 iterations (every iteration with a nonempty queue
consumes at least one of the at most 201 URLs ever enqueued), so any fuel
of at least 202 reaches the loop exit. -/
def bfsRun (fetch : JsUrl → FetchRes) (baseDomain : List Char) :
    Nat → BfsState → BfsState
  | 0, s => s
  | fuel + 1, s =>
    if s.queue = [] ∨ ¬(s.discovered.length < MAX_PAGES) then s
    else bfsRun fetch baseDomain fuel (bfsStep fetch baseDomain s)

/-- Initial BFS state: the normalized start URL is discovered, the start
URL as given is queued. -/
def bfsInit (startUrl : JsUrl) : BfsState :=
  { visited := []
    discovered := [normalizeUrl startUrl]
    queue := [startUrl]
    events := [] }

/-- discoverUrls from the source: run the BFS loop to its exit and return
the discovered URLs in insertion order together with the progress
reports. -/
def discoverUrls (fetch : JsUrl → FetchRes) (startUrl : JsUrl)
    (baseDomain : List Char) : List JsUrl × List (Nat × Nat) :=
  let s := bfsRun fetch baseDomain 402 (bfsInit startUrl)
  (s.discovered, s.events)

-- ─────────────────────────────────────────
-- Site aggregation
-- ─────────────────────────────────────────

/-- Issue counts of one page, and their site-level totals. -/
structure Counts where
  critical : Nat
  warning : Nat
  info : Nat
  total : Nat
deriving DecidableEq

/-- An issue as the aggregator sees it (only the type matters to it). -/
structure Issue where
  type : String
deriving DecidableEq

/-- A successful per-page audit result as consumed by the aggregator and
the report: URL, score (null for JS-rendered pages), counts, issues. -/
structure PageData where
  url : JsUrl
  score : Option Nat
  counts : Counts
  issues : List Issue
deriving DecidableEq

/-- JS ToNumber of a score that may be null: null coerces to 0 in the
arithmetic and comparisons of the aggregator. -/
def scoreNum (s : Option Nat) : Nat := s.getD 0

/-- Math.round of the nonnegative quotient sum / n, as exact half-up
rounding. -/
def jsRoundDiv (sum n : Nat) : Nat := (2 * sum + n) / (2 * n)

/-- The health buckets of the aggregator. -/
structure Health where
  healthy : Nat
  needsWork : Nat
  poor : Nat
deriving DecidableEq

/-- One step of building the issue-frequency map: JS object update
issueFrequency[t] = (issueFrequency[t] or 0) + 1, on an insertion-ordered
association list (issue types are never integer-like strings, so
Object.entries later reads the object back in insertion order). -/
def bump (acc : List (String × Nat)) (t : String) : List (String × Nat) :=
  if acc.any (fun e => e.1 = t) then
    acc.map (fun e => if e.1 = t then (e.1, e.2 + 1) else e)
  else acc ++ [(t, 1)]

/-- The frequency update contributed by one page: bump every issue type
of that page in order. -/
def freqStep (acc : List (String × Nat)) (p : PageData) : List (String × Nat) :=
  p.issues.foldl (fun acc i => bump acc i.type) acc

/-- The issue-frequency association list over all successful pages, in
first-encounter order. -/
def buildFreq (pages : List PageData) : List (String × Nat) :=
  pages.foldl freqStep []

/-- The ordering used to sort the frequency entries: descending by
count.  Array.prototype.sort with comparator (b - a) is a stable sort,
whose denotation on a total preorder is insertion sort with this
relation. -/
def cntGe (a b : String × Nat) : Prop := b.2 ≤ a.2

instance : DecidableRel cntGe := fun a b => Nat.decLe b.2 a.2

instance : IsTotal (String × Nat) cntGe :=
  ⟨fun a b => (Nat.le_total b.2 a.2).imp id id⟩

instance : IsTrans (String × Nat) cntGe :=
  ⟨fun _ _ _ h1 h2 => Nat.le_trans h2 h1⟩

/-- The reducer of the site-level counts: element-wise sum. -/
def countsAdd (acc : Counts) (c : Counts) : Counts :=
  { critical := acc.critical + c.critical
    warning := acc.warning + c.warning
    info := acc.info + c.info
    total := acc.total + c.total }

/-- Result of aggregateSiteResults.  The empty-input branch of the
source returns an object without the healthBreakdown and topIssues keys;
destructuring them then yields undefined, modelled as none. -/
structure AggResult where
  siteScore : Nat
  siteCounts : Counts
  healthBreakdown : Option Health
  topIssues : Option (List (String × Nat))
deriving DecidableEq

/-- aggregateSiteResults from the source.  Its own error filter is kept
even though crawlSite already filters: on PageData inputs it keeps
everything. -/
def aggregateSiteResults (pageResults : List PageData) : AggResult :=
  if pageResults.length = 0 then
    { siteScore := 0
      siteCounts := { critical := 0, warning := 0, info := 0, total := 0 }
      healthBreakdown := none
      topIssues := none }
  else
    let n := pageResults.length
    let sum := (pageResults.map (fun p => scoreNum p.score)).sum
    let siteCounts := pageResults.foldl
      (fun acc p => countsAdd acc p.counts)
      { critical := 0, warning := 0, info := 0, total := 0 }
    let health : Health :=
      { healthy := (pageResults.filter (fun p => 80 ≤ scoreNum p.score)).length
        needsWork := (pageResults.filter
          (fun p => 50 ≤ scoreNum p.score ∧ scoreNum p.score < 80)).length
        poor := (pageResults.filter (fun p => scoreNum p.score < 50)).length }
    let topIssues :=
      ((buildFreq pageResults).insertionSort cntGe).take 5
    { siteScore := jsRoundDiv sum n
      siteCounts := siteCounts
      healthBreakdown := some health
      topIssues := some topIssues }

-- ─────────────────────────────────────────
-- Crawl orchestrator
-- ─────────────────────────────────────────

/-- Outcome of the initial reachability probe fetch: a response with its
status, an abort of the timeout controller, or another network error. -/
inductive ProbeRes where
  | ok (status : Nat)
  | abortTimeout
  | netError (msg : String)

/-- Outcome of one auditUrl call: a resolved audit result, a resolved
error object (auditUrl reports most failures this way), or a thrown
error (caught by the concurrency runner, so its index gets a bare error
object and the progress counter is not bumped). -/
inductive AuditRes where
  | result (score : Option Nat) (counts : Counts) (issues : List Issue)
  | errorResult (msg : String)
  | thrown (msg : String)

/-- The environment of one crawl: the probe outcome, the discovery-phase
fetcher, and the auditor. -/
structure CrawlEnv where
  probe : ProbeRes
  fetch : JsUrl → FetchRes
  audit : JsUrl → AuditRes

/-- Observable events of a crawl, in order: progress callbacks (message
text elided), the start of the discovery phase, and each auditUrl call. -/
inductive Event where
  | progress (phase : String) (current : Nat) (total : Nat)
  | discoveryStarted
  | auditCall (u : JsUrl)
deriving DecidableEq

/-- Entry i of the audit-phase results array: a successful page (the
url spread into the result), an error object from a resolved auditUrl
error (url also spread in), or an error object stored by the runner
catch (no url). -/
inductive PageOutcome where
  | success (p : PageData)
  | errorWithUrl (u : JsUrl) (msg : String)
  | errorCaught (msg : String)
deriving DecidableEq

/-- Whether an entry of the results array has an error field (the
partition predicate of crawlSite). -/
def outcomeIsError : PageOutcome → Bool
  | .success _ => false
  | _ => true

/-- The final report of a successful crawl (fields not bearing on any
claim, such as crawledAt and the message strings, are elided). -/
structure SiteReport where
  domain : List Char
  totalPages : Nat
  successfulPages : Nat
  failedPages : Nat
  siteScore : Nat
  siteCounts : Counts
  healthBreakdown : Option Health
  topIssues : Option (List (String × Nat))
  pages : List PageData
  errors : List (JsUrl × String)
  hitPageLimit : Bool
  pageLimit : Nat

/-- Result of crawlSite: a fatal user-facing error, or the report. -/
inductive CrawlResult where
  | fatal (msg : String)
  | report (r : SiteReport)

/-- The sort order of the pages list: by critical count descending then
total issues descending (again a stable JS sort). -/
def pageGe (a b : PageData) : Prop :=
  b.counts.critical < a.counts.critical ∨
    (a.counts.critical = b.counts.critical ∧ b.counts.total ≤ a.counts.total)

instance : DecidableRel pageGe := fun a b => by
  unfold pageGe; infer_instance

/-- One audited URL of the audit phase.  In the source the audits run
through the concurrency runner at limit 3 with the per-url worker of
crawlSite; each worker body awaits auditUrl, then (only when auditUrl
resolved rather than threw) increments the shared audited counter and
reports progress.  The counter increment and the report are adjacent
between await points, so the reported values are the successive counter
values regardless of worker interleaving, and the results array is the
per-index denotation established for the runner. -/
def auditStep (audit : JsUrl → AuditRes) (n : Nat)
    (acc : List PageOutcome × List Event × Nat) (u : JsUrl) :
    List PageOutcome × List Event × Nat :=
  match audit u with
  | .result score counts issues =>
    (acc.1 ++
      [.success { url := u, score := score, counts := counts, issues := issues }],
     acc.2.1 ++ [.auditCall u, .progress "auditing" (acc.2.2 + 1) n],
     acc.2.2 + 1)
  | .errorResult m =>
    (acc.1 ++ [.errorWithUrl u m],
     acc.2.1 ++ [.auditCall u, .progress "auditing" (acc.2.2 + 1) n],
     acc.2.2 + 1)
  | .thrown m =>
    (acc.1 ++ [.errorCaught m], acc.2.1 ++ [.auditCall u], acc.2.2)

/-- The audit phase over all discovered URLs: results in input order and
the audit-phase events. -/
def auditPhase (audit : JsUrl → AuditRes) (allUrls : List JsUrl) :
    List PageOutcome × List Event :=
  let r := allUrls.foldl (auditStep audit allUrls.length) ([], [], 0)
  (r.1, r.2.1)

/-- The successful pages of the results array (the filter on !p.error). -/
def successesOf (pageResults : List PageOutcome) : List PageData :=
  pageResults.filterMap
    (fun o => match o with | .success p => some p | _ => none)

/-- The failed entries of the results array, paired with the discovered
URL at the same index (the map over pageResults with allUrls[i], then the
filter on p.error). -/
def failuresOf (pageResults : List PageOutcome) (allUrls : List JsUrl) :
    List (JsUrl × String) :=
  (pageResults.zip allUrls).filterMap
    (fun o => match o with
      | (.errorWithUrl _ m, u) => some (u, m)
      | (.errorCaught m, u) => some (u, m)
      | _ => none)

/-- crawlSite from the source, after URL-string normalization: the model
receives the outcome of `new URL(startUrl)` (none when parsing throws,
making the start URL invalid).  Returns the result together with the
ordered trace of observable events. -/
def crawlSite (env : CrawlEnv) (parsed : Option JsUrl) :
    CrawlResult × List Event :=
  match parsed with
  | none => (.fatal "Invalid URL. Please enter a valid website address.", [])
  | some su =>
    let baseDomain := su.host
    match env.probe with
    | .abortTimeout =>
      (.fatal "The site took too long to respond. Make sure it is online and publicly accessible.", [])
    | .netError m => (.fatal ("Could not reach the site. (" ++ m ++ ")"), [])
    | .ok status =>
      if ¬(200 ≤ status ∧ status ≤ 299) then
        (.fatal "The site returned an HTTP error. Make sure the URL is correct and the site is publicly accessible.", [])
      else
        let d := discoverUrls env.fetch (normalizeUrl su) baseDomain
        let allUrls := d.1
        let trace0 := [Event.discoveryStarted, Event.progress "discovering" 0 0]
          ++ d.2.map (fun e => Event.progress "discovering" e.1 e.2)
        if allUrls.length = 0 then
          (.fatal "No pages found to crawl. The site may be blocking crawlers or have no internal links.", trace0)
        else
          let trace1 := trace0 ++ [Event.progress "auditing" 0 allUrls.length]
          let ap := auditPhase env.audit allUrls
          let pageResults := ap.1
          let successfulPages := successesOf pageResults
          let failedPages := failuresOf pageResults allUrls
          let agg := aggregateSiteResults successfulPages
          let sortedPages := successfulPages.insertionSort pageGe
          (.report
            { domain := baseDomain
              totalPages := allUrls.length
              successfulPages := successfulPages.length
              failedPages := failedPages.length
              siteScore := agg.siteScore
              siteCounts := agg.siteCounts
              healthBreakdown := agg.healthBreakdown
              topIssues := agg.topIssues
              pages := sortedPages
              errors := failedPages
              hitPageLimit := decide (MAX_PAGES ≤ allUrls.length)
              pageLimit := MAX_PAGES },
           trace1 ++ ap.2)

-- ─────────────────────────────────────────
-- Claim-side characterizations (written from the claim wording, for
-- comparison with the code-side definitions above)
-- ─────────────────────────────────────────

/-- The stream of issue types over the successful pages, pages in input
order and issues in page order. -/
def typesOf (pages : List PageData) : List String :=
  (pages.map (fun p => p.issues.map (fun i => i.type))).flatten

/-- The issue types in the order in which each type is first
encountered while scanning the stream left to right (the tie-break
order the claim describes). -/
def encounterOrder : List String → List String
  | [] => []
  | t :: rest => t :: encounterOrder (rest.filter (fun x => x != t))
termination_by l => l.length
decreasing_by
  simp only [List.length_cons]
  exact Nat.lt_succ_of_le (List.length_filter_le _ rest)

/-- The claim-side frequency list: every issue type in first-encounter
order, paired with its number of occurrences across all pages.  The
claim describes topIssues as this list sorted descending by count (ties
keeping this order, which the stable sort preserves) and truncated to
the top 5. -/
def encounterFreq (pages : List PageData) : List (String × Nat) :=
  (encounterOrder (typesOf pages)).map
    (fun t => (t, (typesOf pages).count t))

/-- The entry of the results array produced for one audited URL: the
worker result with the url spread in, an auditUrl error object with the
url spread in, or the bare error object stored by the runner catch. -/
def auditOutcome (audit : JsUrl → AuditRes) (u : JsUrl) : PageOutcome :=
  match audit u with
  | AuditRes.result score counts issues =>
    PageOutcome.success
      { url := u, score := score, counts := counts, issues := issues }
  | AuditRes.errorResult m => PageOutcome.errorWithUrl u m
  | AuditRes.thrown m => PageOutcome.errorCaught m

/-- The report of a successful crawl, none on a fatal error. -/
def reportOf : CrawlResult → Option SiteReport
  | CrawlResult.report r => some r
  | CrawlResult.fatal _ => none

/-- An all-zero report, used only as the default of Option.getD when
projecting out of reportOf. -/
def emptyReport : SiteReport :=
  { domain := [], totalPages := 0, successfulPages := 0, failedPages := 0,
    siteScore := 0,
    siteCounts := { critical := 0, warning := 0, info := 0, total := 0 },
    healthBreakdown := none, topIssues := none, pages := [], errors := [],
    hitPageLimit := false, pageLimit := 0 }

/-- The current values passed to successive progress callbacks of one
phase, in trace order (the sequence the claim requires to be
monotonically non-decreasing). -/
def progressCurrents (ph : String) (tr : List Event) : List Nat :=
  tr.filterMap (fun e =>
    match e with
    | Event.progress p c _ => if p = ph then some c else none
    | _ => none)

-- ─────────────────────────────────────────
-- Concrete example inputs used by witnesses and counterexamples
-- ─────────────────────────────────────────

/-- The parsed URL https://example.com/. -/
def exHome : JsUrl :=
  { scheme := "https", host := "example.com".data, path := "/".data,
    query := [], fragment := none }

/-- The parsed URL https://example.com/api/docs (its path matches the
/api/ skip filter). -/
def exApiDocs : JsUrl :=
  { scheme := "https", host := "example.com".data, path := "/api/docs".data,
    query := [], fragment := none }

/-- The parsed URL https://x.com/a// (its path ends in a double slash). -/
def exDoubleSlash : JsUrl :=
  { scheme := "https", host := "x.com".data, path := "/a//".data,
    query := [], fragment := none }

/-- The parsed URL https://www.Example.com/About/?utm_source=x&q=1#frag. -/
def exMixed : JsUrl :=
  { scheme := "https", host := "www.Example.com".data, path := "/About/".data,
    query := [("utm_source", "x"), ("q", "1")], fragment := some "frag" }

/-- The parsed URL https://example.com/about. -/
def exAbout : JsUrl :=
  { scheme := "https", host := "example.com".data, path := "/about".data,
    query := [], fragment := none }

/-- A discovery fetcher for which every fetch fails. -/
def noFetch : JsUrl → FetchRes := fun _ => FetchRes.failure

/-- A discovery fetcher serving a homepage that links to /about and to
the external https://other.com/x (scenario A of the specification). -/
def twoLinkFetch : JsUrl → FetchRes := fun u =>
  if u.path = "/".data then
    FetchRes.page exHome true
      [{ href := "/about".data, resolved := some exAbout },
       { href := "https://other.com/x".data,
         resolved := some { scheme := "https", host := "other.com".data,
                            path := "/x".data, query := [], fragment := none } }]
  else FetchRes.failure

/-- The audit worker of the concrete runner example: fails only on 2. -/
def fn123 : Nat → Except String Nat :=
  fun n => if n = 2 then Except.error "boom" else Except.ok (n * 10)

/-- A page with score 100 and one critical issue counted. -/
def pageA : PageData :=
  { url := exHome, score := some 100,
    counts := { critical := 1, warning := 0, info := 0, total := 1 },
    issues := [{ type := "missing_title" }] }

/-- A page with score 50 and two critical issues counted. -/
def pageB : PageData :=
  { url := exAbout, score := some 50,
    counts := { critical := 2, warning := 0, info := 0, total := 2 },
    issues := [{ type := "missing_title" }, { type := "missing_h1" }] }

/-- A page with score 0 and no issues counted. -/
def pageC : PageData :=
  { url := exApiDocs, score := some 0,
    counts := { critical := 0, warning := 0, info := 0, total := 0 },
    issues := [] }

/-- A page with two issue types, for the frequency example. -/
def pageI1 : PageData :=
  { url := exHome, score := some 80,
    counts := { critical := 0, warning := 1, info := 1, total := 2 },
    issues := [{ type := "missing_title" }, { type := "thin_content" }] }

/-- A page repeating one of the issue types, for the frequency example. -/
def pageI2 : PageData :=
  { url := exAbout, score := some 90,
    counts := { critical := 0, warning := 1, info := 0, total := 1 },
    issues := [{ type := "missing_title" }] }

/-- A crawl environment whose reachability probe times out. -/
def envTimeout : CrawlEnv :=
  { probe := ProbeRes.abortTimeout, fetch := noFetch,
    audit := fun _ => AuditRes.errorResult "x" }

/-- A crawl environment that reaches the site, discovers only the start
URL, and fails every audit. -/
def envAllFail : CrawlEnv :=
  { probe := ProbeRes.ok 200, fetch := noFetch,
    audit := fun _ => AuditRes.errorResult "HTTP 500" }

-- ═════════════════════════════════════════
-- Theorems
-- ═════════════════════════════════════════

-- ── Normalization: character and field lemmas ──

theorem charToNat_ofNat_valid {n : Nat} (h : n.isValidChar) :
    (Char.ofNat n).toNat = n := by
  simp only [Char.ofNat, Char.ofNatAux, Char.toNat, dif_pos h]
  rfl

theorem charToLower_idem (c : Char) : c.toLower.toLower = c.toLower := by
  unfold Char.toLower
  by_cases h : c.toNat ≥ 65 ∧ c.toNat ≤ 90
  · have hv : (c.toNat + 32).isValidChar := Or.inl (by omega)
    have hn : (Char.ofNat (c.toNat + 32)).toNat = c.toNat + 32 :=
      charToNat_ofNat_valid hv
    rw [if_pos h, if_neg (by rw [hn]; omega)]
  · rw [if_neg h, if_neg h]

theorem lowerStr_idem (s : List Char) : lowerStr (lowerStr s) = lowerStr s := by
  simp only [lowerStr, List.map_map]
  exact List.map_congr_left (fun c _ => charToLower_idem c)

theorem filter_tracking_idem (q : List (String × String)) :
    (q.filter (fun kv => !(trackingParams.contains kv.1))).filter
        (fun kv => !(trackingParams.contains kv.1)) =
      q.filter (fun kv => !(trackingParams.contains kv.1)) := by
  rw [List.filter_filter]
  exact List.filter_congr (fun kv _ => by cases trackingParams.contains kv.1 <;> rfl)

theorem stripTrailingSlash_idem (p : List Char)
    (h : ¬(2 < p.length ∧ p.getLast? = some '/' ∧
            p.dropLast.getLast? = some '/')) :
    stripTrailingSlash (stripTrailingSlash p) = stripTrailingSlash p := by
  unfold stripTrailingSlash
  by_cases h1 : 1 < p.length ∧ p.getLast? = some '/'
  · rw [if_pos h1]
    by_cases h2 : 1 < p.dropLast.length ∧ p.dropLast.getLast? = some '/'
    · refine absurd ⟨?_, h1.2, h2.2⟩ h
      have := h2.1
      simp only [List.length_dropLast] at this
      omega
    · rw [if_neg h2]
  · rw [if_neg h1, if_neg h1]

/-- C6, counterexample: the claim quantifies over every parseable URL,
but normalizeUrl strips only one trailing slash, so on the parseable URL
https://x.com/a// one application yields path /a/ and a second
application strips again: normalization is not idempotent there. -/
theorem C6_counterexample :
    ¬ (normalizeUrl (normalizeUrl exDoubleSlash) = normalizeUrl exDoubleSlash) := by
  decide

/-- C6, amended: normalizeUrl is idempotent on every parseable URL whose
path does not end in a double slash (a path of length at least three
whose last two characters are slashes); on the excluded paths one
application removes only the outermost slash. -/
theorem C6_normalizeUrl_idempotent (u : JsUrl)
    (h : ¬(2 < u.path.length ∧ u.path.getLast? = some '/' ∧
            u.path.dropLast.getLast? = some '/')) :
    normalizeUrl (normalizeUrl u) = normalizeUrl u := by
  unfold normalizeUrl
  simp only [JsUrl.mk.injEq, true_and, and_true]
  exact ⟨lowerStr_idem _, stripTrailingSlash_idem _ h, filter_tracking_idem _⟩

/-- C6, witness: the amended idempotence applied at the concrete URL
https://www.Example.com/About/?utm_source=x&q=1#frag. -/
theorem C6_witness :
    normalizeUrl (normalizeUrl exMixed) = normalizeUrl exMixed :=
  C6_normalizeUrl_idempotent exMixed (by decide)

-- ── Link extraction: every produced link is same-domain and unskipped ──

theorem mem_setAdd {l : List JsUrl} {u v : JsUrl} (h : v ∈ setAdd l u) :
    v ∈ l ∨ v = u := by
  unfold setAdd at h
  split at h
  · exact Or.inl h
  · rcases List.mem_append.1 h with h | h
    · exact Or.inl h
    · exact Or.inr (List.mem_singleton.1 h)

theorem mem_extractStep {base : List Char} {acc : List JsUrl} {a : Anchor}
    {v : JsUrl} (h : v ∈ extractStep base acc a) :
    v ∈ acc ∨ (isSameDomain v base = true ∧ shouldSkipUrl v = false) := by
  unfold extractStep at h
  cases ha : a.resolved with
  | none =>
    rw [ha] at h
    dsimp only at h
    split at h
    · exact Or.inl h
    · exact Or.inl h
  | some u =>
    rw [ha] at h
    dsimp only at h
    split at h
    · exact Or.inl h
    · split at h
      · rcases mem_setAdd h with h | rfl
        · exact Or.inl h
        · rename_i hcond
          rw [Bool.and_eq_true, Bool.not_eq_eq_eq_not, Bool.not_true] at hcond
          exact Or.inr ⟨hcond.1, hcond.2⟩
      · exact Or.inl h

theorem mem_foldl_extractStep {base : List Char} (anchors : List Anchor) :
    ∀ (acc : List JsUrl) (v : JsUrl),
      v ∈ anchors.foldl (extractStep base) acc →
      v ∈ acc ∨ (isSameDomain v base = true ∧ shouldSkipUrl v = false) := by
  induction anchors with
  | nil => intro acc v h; exact Or.inl h
  | cons a t ih =>
    intro acc v h
    rw [List.foldl_cons] at h
    rcases ih _ v h with h | h
    · exact mem_extractStep h
    · exact Or.inr h

theorem mem_extractInternalLinks {anchors : List Anchor} {base : List Char}
    {v : JsUrl} (h : v ∈ extractInternalLinks anchors base) :
    isSameDomain v base = true ∧ shouldSkipUrl v = false := by
  rcases mem_foldl_extractStep anchors [] v h with h | h
  · cases h
  · exact h

theorem mem_fetchLinks {fetch : JsUrl → FetchRes} {base : List Char}
    {url v : JsUrl} (h : v ∈ fetchLinks fetch base url) :
    isSameDomain v base = true ∧ shouldSkipUrl v = false := by
  unfold fetchLinks at h
  cases hf : fetch url with
  | failure => rw [hf] at h; cases h
  | page finalUrl isHtml anchors =>
    rw [hf] at h
    dsimp only at h
    split at h
    · cases h
    · split at h
      · cases h
      · exact mem_extractInternalLinks h

-- ── The merge fold: membership, append-only growth, size bound ──

theorem mergeLink_cases (dq : List JsUrl × List JsUrl) (link : JsUrl) :
    (mergeLink dq link).1 = dq.1 ∨ (mergeLink dq link).1 = dq.1 ++ [link] := by
  unfold mergeLink
  split
  · exact Or.inr rfl
  · exact Or.inl rfl

theorem mergeLinks_append (links : List JsUrl) :
    ∀ dq : List JsUrl × List JsUrl,
      ∃ l, (mergeLinks dq links).1 = dq.1 ++ l ∧ ∀ v ∈ l, v ∈ links := by
  induction links with
  | nil => exact fun dq => ⟨[], (List.append_nil _).symm, by simp⟩
  | cons a t ih =>
    intro dq
    rcases ih (mergeLink dq a) with ⟨l, hl, hmem⟩
    rcases mergeLink_cases dq a with hc | hc
    · exact ⟨l, by rw [mergeLinks, List.foldl_cons, ← mergeLinks, hl, hc],
        fun v hv => List.mem_cons_of_mem a (hmem v hv)⟩
    · refine ⟨a :: l, ?_, ?_⟩
      · rw [mergeLinks, List.foldl_cons, ← mergeLinks, hl, hc,
          List.append_assoc]
        rfl
      · intro v hv
        rcases List.mem_cons.1 hv with rfl | hv
        · exact List.mem_cons_self _ _
        · exact List.mem_cons_of_mem a (hmem v hv)

theorem foldl_mergeLinks_append (lists : List (List JsUrl)) :
    ∀ dq : List JsUrl × List JsUrl,
      ∃ l, (lists.foldl mergeLinks dq).1 = dq.1 ++ l ∧
        ∀ v ∈ l, ∃ links ∈ lists, v ∈ links := by
  induction lists with
  | nil => exact fun dq => ⟨[], (List.append_nil _).symm, by simp⟩
  | cons links t ih =>
    intro dq
    rcases mergeLinks_append links dq with ⟨l1, h1, hm1⟩
    rcases ih (mergeLinks dq links) with ⟨l2, h2, hm2⟩
    refine ⟨l1 ++ l2, ?_, ?_⟩
    · rw [List.foldl_cons, h2, h1, List.append_assoc]
    · intro v hv
      rcases List.mem_append.1 hv with hv | hv
      · exact ⟨links, List.mem_cons_self _ _, hm1 v hv⟩
      · rcases hm2 v hv with ⟨ls, hls, hvls⟩
        exact ⟨ls, List.mem_cons_of_mem _ hls, hvls⟩

theorem mergeLink_length_le {dq : List JsUrl × List JsUrl} {link : JsUrl}
    (h : dq.1.length ≤ MAX_PAGES) :
    (mergeLink dq link).1.length ≤ MAX_PAGES := by
  unfold mergeLink
  split
  · rename_i hc
    simp only [List.length_append, List.length_singleton]
    omega
  · exact h

theorem mergeLinks_length_le (links : List JsUrl) :
    ∀ {dq : List JsUrl × List JsUrl}, dq.1.length ≤ MAX_PAGES →
      (mergeLinks dq links).1.length ≤ MAX_PAGES := by
  induction links with
  | nil => exact fun h => h
  | cons a t ih =>
    intro dq h
    rw [mergeLinks, List.foldl_cons, ← mergeLinks]
    exact ih (mergeLink_length_le h)

theorem foldl_mergeLinks_length_le (lists : List (List JsUrl)) :
    ∀ {dq : List JsUrl × List JsUrl}, dq.1.length ≤ MAX_PAGES →
      (lists.foldl mergeLinks dq).1.length ≤ MAX_PAGES := by
  induction lists with
  | nil => exact fun h => h
  | cons links t ih =>
    intro dq h
    rw [List.foldl_cons]
    exact ih (mergeLinks_length_le links h)

-- ── Batch processing and the BFS invariants ──

theorem batchStep_links_good {fetch : JsUrl → FetchRes} {base : List Char}
    {acc : List JsUrl × List (List JsUrl)} {url : JsUrl}
    (hacc : ∀ ls ∈ acc.2, ∀ v ∈ ls,
      isSameDomain v base = true ∧ shouldSkipUrl v = false) :
    ∀ ls ∈ (batchStep fetch base acc url).2, ∀ v ∈ ls,
      isSameDomain v base = true ∧ shouldSkipUrl v = false := by
  intro ls hls v hv
  unfold batchStep at hls
  split at hls
  · rcases List.mem_append.1 hls with hls | hls
    · exact hacc ls hls v hv
    · rw [List.mem_singleton.1 hls] at hv
      cases hv
  · rcases List.mem_append.1 hls with hls | hls
    · exact hacc ls hls v hv
    · rw [List.mem_singleton.1 hls] at hv
      exact mem_fetchLinks hv

theorem processBatch_links_good {fetch : JsUrl → FetchRes} {base : List Char}
    (batch : List JsUrl) :
    ∀ (acc : List JsUrl × List (List JsUrl)),
      (∀ ls ∈ acc.2, ∀ v ∈ ls,
        isSameDomain v base = true ∧ shouldSkipUrl v = false) →
      ∀ ls ∈ (batch.foldl (batchStep fetch base) acc).2, ∀ v ∈ ls,
        isSameDomain v base = true ∧ shouldSkipUrl v = false := by
  induction batch with
  | nil => exact fun acc hacc => hacc
  | cons url t ih =>
    intro acc hacc
    rw [List.foldl_cons]
    exact ih _ (batchStep_links_good hacc)

theorem bfsStep_discovered_decomp (fetch : JsUrl → FetchRes)
    (base : List Char) (s : BfsState) :
    ∃ l, (bfsStep fetch base s).discovered = s.discovered ++ l ∧
      ∀ v ∈ l, isSameDomain v base = true ∧ shouldSkipUrl v = false := by
  unfold bfsStep
  dsimp only
  rcases foldl_mergeLinks_append
      (processBatch fetch base s.visited (s.queue.take CONCURRENCY)).2
      (s.discovered, s.queue.drop CONCURRENCY) with ⟨l, hl, hmem⟩
  refine ⟨l, hl, fun v hv => ?_⟩
  rcases hmem v hv with ⟨links, hlinks, hvlinks⟩
  exact processBatch_links_good _ _ (by intro ls hls; cases hls) links hlinks v hvlinks

theorem bfsRun_discovered_decomp (fetch : JsUrl → FetchRes)
    (base : List Char) (fuel : Nat) :
    ∀ s : BfsState,
      ∃ l, (bfsRun fetch base fuel s).discovered = s.discovered ++ l ∧
        ∀ v ∈ l, isSameDomain v base = true ∧ shouldSkipUrl v = false := by
  induction fuel with
  | zero => exact fun s => ⟨[], (List.append_nil _).symm, by simp⟩
  | succ fuel ih =>
    intro s
    rw [bfsRun]
    split
    · exact ⟨[], (List.append_nil _).symm, by simp⟩
    · rcases bfsStep_discovered_decomp fetch base s with ⟨l1, h1, hm1⟩
      rcases ih (bfsStep fetch base s) with ⟨l2, h2, hm2⟩
      refine ⟨l1 ++ l2, ?_, ?_⟩
      · rw [h2, h1, List.append_assoc]
      · intro v hv
        rcases List.mem_append.1 hv with hv | hv
        · exact hm1 v hv
        · exact hm2 v hv

theorem bfsStep_discovered_length {fetch : JsUrl → FetchRes}
    {base : List Char} {s : BfsState}
    (h : s.discovered.length ≤ MAX_PAGES) :
    (bfsStep fetch base s).discovered.length ≤ MAX_PAGES := by
  unfold bfsStep
  dsimp only
  exact foldl_mergeLinks_length_le _ h

theorem bfsRun_discovered_length {fetch : JsUrl → FetchRes}
    {base : List Char} (fuel : Nat) :
    ∀ {s : BfsState}, s.discovered.length ≤ MAX_PAGES →
      (bfsRun fetch base fuel s).discovered.length ≤ MAX_PAGES := by
  induction fuel with
  | zero => exact fun h => h
  | succ fuel ih =>
    intro s h
    rw [bfsRun]
    split
    · exact h
    · exact ih (bfsStep_discovered_length h)

theorem isSameDomain_normalize_start (su : JsUrl) :
    isSameDomain (normalizeUrl (normalizeUrl su)) su.host = true := by
  unfold isSameDomain normalizeUrl
  dsimp only
  rw [lowerStr_idem, lowerStr_idem]
  simp

theorem discoverUrls_head (fetch : JsUrl → FetchRes) (startUrl : JsUrl)
    (base : List Char) :
    ∃ l, (discoverUrls fetch startUrl base).1 = normalizeUrl startUrl :: l := by
  unfold discoverUrls
  dsimp only
  rcases bfsRun_discovered_decomp fetch base 402 (bfsInit startUrl) with ⟨l, hl, _⟩
  exact ⟨l, by rw [hl]; rfl⟩

/-- C1, counterexample: the start URL is inserted into the discovered set
unconditionally; starting a crawl at https://example.com/api/docs puts a
URL whose path matches the /api/ skip filter into the discovered set, so
not every discovered URL passes shouldSkipUrl. -/
theorem C1_counterexample :
    ∃ v ∈ (discoverUrls noFetch (normalizeUrl exApiDocs) exApiDocs.host).1,
      ¬(isSameDomain v exApiDocs.host = true ∧ shouldSkipUrl v = false) := by
  refine ⟨normalizeUrl (normalizeUrl exApiDocs), by decide, by decide⟩

/-- C1, amended: every URL in the discovered set other than the
(re-normalized) start URL is same-domain and passes the skip filters;
the start URL itself, inserted at initialization without filtering, is
always same-domain when discovery is invoked by crawlSite (which passes
the normalized start URL and its own host as the base domain) but need
not pass shouldSkipUrl. -/
theorem C1_discovered_same_domain_unskipped :
    (∀ (fetch : JsUrl → FetchRes) (startUrl : JsUrl) (base : List Char)
        (v : JsUrl), v ∈ (discoverUrls fetch startUrl base).1 →
      v = normalizeUrl startUrl ∨
        (isSameDomain v base = true ∧ shouldSkipUrl v = false)) ∧
    (∀ (fetch : JsUrl → FetchRes) (su : JsUrl) (v : JsUrl),
        v ∈ (discoverUrls fetch (normalizeUrl su) su.host).1 →
      isSameDomain v su.host = true) := by
  have main : ∀ (fetch : JsUrl → FetchRes) (startUrl : JsUrl)
      (base : List Char) (v : JsUrl),
      v ∈ (discoverUrls fetch startUrl base).1 →
      v = normalizeUrl startUrl ∨
        (isSameDomain v base = true ∧ shouldSkipUrl v = false) := by
    intro fetch startUrl base v hv
    unfold discoverUrls at hv
    dsimp only at hv
    rcases bfsRun_discovered_decomp fetch base 402 (bfsInit startUrl)
      with ⟨l, hl, hmem⟩
    rw [hl] at hv
    rcases List.mem_append.1 hv with hv | hv
    · exact Or.inl (List.mem_singleton.1 hv)
    · exact Or.inr (hmem v hv)
  refine ⟨main, fun fetch su v hv => ?_⟩
  rcases main fetch (normalizeUrl su) su.host v hv with rfl | h
  · exact isSameDomain_normalize_start su
  · exact h.1

/-- C1, witness: the amended invariant applied to the /about link of a
concrete crawl of https://example.com whose homepage links to /about and
to an external site. -/
theorem C1_witness :
    exAbout = normalizeUrl exHome ∨
      (isSameDomain exAbout exHome.host = true ∧
        shouldSkipUrl exAbout = false) :=
  C1_discovered_same_domain_unskipped.1 twoLinkFetch exHome exHome.host
    exAbout (by decide)

-- ── Inversion of a successful crawl ──

theorem crawlSite_report_inv {env : CrawlEnv} {parsed : Option JsUrl}
    {r : SiteReport} {tr : List Event}
    (h : crawlSite env parsed = (CrawlResult.report r, tr)) :
    ∃ su, parsed = some su ∧
      r.domain = su.host ∧
      r.totalPages =
        (discoverUrls env.fetch (normalizeUrl su) su.host).1.length ∧
      r.hitPageLimit = decide (MAX_PAGES ≤
        (discoverUrls env.fetch (normalizeUrl su) su.host).1.length) ∧
      r.successfulPages = (successesOf (auditPhase env.audit
        (discoverUrls env.fetch (normalizeUrl su) su.host).1).1).length ∧
      r.failedPages = (failuresOf (auditPhase env.audit
        (discoverUrls env.fetch (normalizeUrl su) su.host).1).1
        (discoverUrls env.fetch (normalizeUrl su) su.host).1).length ∧
      r.siteScore = (aggregateSiteResults (successesOf (auditPhase env.audit
        (discoverUrls env.fetch (normalizeUrl su) su.host).1).1)).siteScore ∧
      r.siteCounts = (aggregateSiteResults (successesOf (auditPhase env.audit
        (discoverUrls env.fetch (normalizeUrl su) su.host).1).1)).siteCounts ∧
      r.healthBreakdown = (aggregateSiteResults (successesOf
        (auditPhase env.audit
          (discoverUrls env.fetch (normalizeUrl su) su.host).1).1)).healthBreakdown ∧
      r.topIssues = (aggregateSiteResults (successesOf (auditPhase env.audit
        (discoverUrls env.fetch (normalizeUrl su) su.host).1).1)).topIssues := by
  match hp : parsed with
  | none =>
    rw [crawlSite] at h
    cases h
  | some su =>
    rw [crawlSite] at h
    match hpr : env.probe with
    | .abortTimeout => rw [hpr] at h; cases h
    | .netError m => rw [hpr] at h; cases h
    | .ok status =>
      rw [hpr] at h
      dsimp only at h
      split at h
      · cases h
      · split at h
        · cases h
        · rw [Prod.mk.injEq] at h
          obtain ⟨h1, _⟩ := h
          rw [CrawlResult.report.injEq] at h1
          subst h1
          exact ⟨su, rfl, rfl, rfl, rfl, rfl, rfl, rfl, rfl, rfl, rfl⟩

/-- C2: the discovered set never exceeds MAX_PAGES at any point of any
run (the per-link size check makes every reachable BFS state respect the
cap), and the report field hitPageLimit equals the comparison of the
discovered count against MAX_PAGES. -/
theorem C2_page_limit :
    (∀ (fetch : JsUrl → FetchRes) (base : List Char) (fuel : Nat)
        (s : BfsState), s.discovered.length ≤ MAX_PAGES →
      (bfsRun fetch base fuel s).discovered.length ≤ MAX_PAGES) ∧
    (∀ (fetch : JsUrl → FetchRes) (startUrl : JsUrl) (base : List Char),
      (discoverUrls fetch startUrl base).1.length ≤ MAX_PAGES) ∧
    (∀ (env : CrawlEnv) (parsed : Option JsUrl) (r : SiteReport)
        (tr : List Event),
      crawlSite env parsed = (CrawlResult.report r, tr) →
      r.hitPageLimit = decide (MAX_PAGES ≤ r.totalPages)) := by
  refine ⟨fun fetch base fuel s h => bfsRun_discovered_length fuel h, ?_, ?_⟩
  · intro fetch startUrl base
    unfold discoverUrls
    dsimp only
    refine bfsRun_discovered_length 402 ?_
    simp [bfsInit, MAX_PAGES]
  · intro env parsed r tr h
    rcases crawlSite_report_inv h with ⟨su, _, _, htot, hhit, _⟩
    rw [hhit, htot]

/-- C2, witness: the cap applied to one BFS iteration from the initial
state of a crawl of https://example.com. -/
theorem C2_witness :
    (bfsRun noFetch ("example.com".data) 1
      (bfsInit exHome)).discovered.length ≤ MAX_PAGES :=
  C2_page_limit.1 noFetch ("example.com".data) 1 (bfsInit exHome) (by decide)

-- ── The concurrency runner fills every slot, in order ──

theorem rwcRun_fills {α β : Type} (items : List α) (fn : α → Except String β) :
    ∀ (fuel k : Nat) (res : List (Option (RwcRes β))),
      res.length = items.length →
      items.length ≤ k + fuel →
      (∀ (i : Nat) (itm : α), i < k → items[i]? = some itm →
        res[i]? = some (some (rwcDenote (fn itm)))) →
      ∀ (i : Nat) (itm : α), items[i]? = some itm →
        (rwcRun items fn fuel { results := res, index := k }).results[i]? =
          some (some (rwcDenote (fn itm))) := by
  intro fuel
  induction fuel with
  | zero =>
    intro k res hlen hk hfilled i itm hitm
    have hi : i < items.length := (List.getElem?_eq_some.1 hitm).1
    exact hfilled i itm (by omega) hitm
  | succ fuel ih =>
    intro k res hlen hk hfilled i itm hitm
    rw [rwcRun]
    unfold rwcStep
    dsimp only
    match hk2 : items[k]? with
    | some it =>
      have hklt : k < items.length := (List.getElem?_eq_some.1 hk2).1
      refine ih (k + 1) _ (by simp [hlen]) (by omega) ?_ i itm hitm
      intro j jtm hj hjtm
      rcases Nat.lt_or_ge j k with hjk | hjk
      · rw [List.getElem?_set_ne (by omega)]
        exact hfilled j jtm hjk hjtm
      · have : j = k := by omega
        subst this
        rw [hk2] at hjtm
        cases hjtm
        rw [List.getElem?_set_self (by omega)]
    | none =>
      have hklt : ¬(k < items.length) := by
        intro hlt
        rw [List.getElem?_eq_getElem hlt] at hk2
        cases hk2
      have hi : i < items.length := (List.getElem?_eq_some.1 hitm).1
      refine ih k res hlen (by omega) hfilled i itm hitm

/-- C3: for every items list, limit at least 1 and fallible worker, the
runner returns one slot per item, and slot i holds the value of fn on
items[i] when that call succeeds and the error object when it throws;
every item is attempted regardless of other items' failures.  The last
conjunct is the concrete instance of the claim: items 1,2,3 with a
worker failing only on 2. -/
theorem C3_runWithConcurrency_isolates :
    (∀ (α β : Type) (items : List α) (limit : Nat)
        (fn : α → Except String β), 1 ≤ limit →
      (runWithConcurrency items limit fn).length = items.length ∧
      ∀ (i : Nat) (itm : α), items[i]? = some itm →
        (runWithConcurrency items limit fn)[i]? =
          some (some (rwcDenote (fn itm)))) ∧
    runWithConcurrency [1, 2, 3] 2 fn123 =
      [some (RwcRes.val 10), some (RwcRes.errObj "boom"),
       some (RwcRes.val 30)] := by
  constructor
  · intro α β items limit fn hlim
    constructor
    · unfold runWithConcurrency
      split
      · rw [List.length_replicate]
      · rename_i hmin
        have : ∀ fuel (s : RwcState β),
            (rwcRun items fn fuel s).results.length = s.results.length := by
          intro fuel
          induction fuel with
          | zero => intro s; rfl
          | succ fuel ih =>
            intro s
            rw [rwcRun, ih]
            unfold rwcStep
            match items[s.index]? with
            | some it => exact List.length_set _ _ _
            | none => rfl
        rw [this, List.length_replicate]
    · intro i itm hitm
      unfold runWithConcurrency
      have hi : i < items.length := (List.getElem?_eq_some.1 hitm).1
      rw [if_neg (by omega)]
      refine rwcRun_fills items fn items.length 0 _
        (List.length_replicate _ _) (by omega) ?_ i itm hitm
      intro j jtm hj _
      omega
  · decide

/-- C3, witness: slot 1 of the concrete run records the error object of
the worker that fails on item 2. -/
theorem C3_witness :
    (runWithConcurrency [1, 2, 3] 2 fn123)[1]? =
      some (some (rwcDenote (fn123 2))) :=
  (C3_runWithConcurrency_isolates.1 Nat Nat [1, 2, 3] 2 fn123
    (by decide)).2 1 2 (by decide)

/-- C4: if the reachability probe of the start URL times out, throws, or
returns a non-2xx status, crawlSite returns a fatal error result and the
event trace is empty — in particular discovery never starts and no
auditUrl call is made, so no partial report can exist. -/
theorem C4_probe_failure_aborts (env : CrawlEnv) (su : JsUrl)
    (h : env.probe = ProbeRes.abortTimeout ∨
         (∃ m, env.probe = ProbeRes.netError m) ∨
         (∃ st, env.probe = ProbeRes.ok st ∧ ¬(200 ≤ st ∧ st ≤ 299))) :
    (∃ msg, (crawlSite env (some su)).1 = CrawlResult.fatal msg) ∧
    (crawlSite env (some su)).2 = [] := by
  rcases h with h | ⟨m, h⟩ | ⟨st, h, hst⟩
  · rw [crawlSite, h]
    exact ⟨⟨_, rfl⟩, rfl⟩
  · rw [crawlSite, h]
    exact ⟨⟨_, rfl⟩, rfl⟩
  · rw [crawlSite, h]
    dsimp only
    rw [if_pos hst]
    exact ⟨⟨_, rfl⟩, rfl⟩

/-- C4, witness: a probe timeout on a crawl of https://example.com. -/
theorem C4_witness :
    (∃ msg, (crawlSite envTimeout (some exHome)).1 = CrawlResult.fatal msg) ∧
    (crawlSite envTimeout (some exHome)).2 = [] :=
  C4_probe_failure_aborts envTimeout exHome (Or.inl rfl)

-- ── Aggregator arithmetic ──

theorem foldl_countsAdd_eq (pages : List PageData) :
    ∀ acc : Counts,
      pages.foldl (fun a p => countsAdd a p.counts) acc =
        { critical := acc.critical + (pages.map (fun p => p.counts.critical)).sum,
          warning := acc.warning + (pages.map (fun p => p.counts.warning)).sum,
          info := acc.info + (pages.map (fun p => p.counts.info)).sum,
          total := acc.total + (pages.map (fun p => p.counts.total)).sum } := by
  induction pages with
  | nil =>
    intro acc
    cases acc
    simp
  | cons p t ih =>
    intro acc
    rw [List.foldl_cons, ih]
    simp only [countsAdd, List.map_cons, List.sum_cons, Counts.mk.injEq]
    omega

theorem jsRoundDiv_eq_round (s n : Nat) (hn : 0 < n) :
    jsRoundDiv s n = ⌊(s : ℚ) / (n : ℚ) + 1 / 2⌋₊ := by
  have hne : (n : ℚ) ≠ 0 := Nat.cast_ne_zero.2 hn.ne'
  have key : (s : ℚ) / (n : ℚ) + 1 / 2 =
      ((2 * s + n : ℕ) : ℚ) / ((2 * n : ℕ) : ℚ) := by
    push_cast
    field_simp
    ring
  rw [key, Nat.floor_div_eq_div]
  rfl

/-- C5: on a nonempty list of successful pages whose scores are all
non-null (scores is that list of scores), the aggregator computes
siteScore as the half-up rounded unweighted arithmetic mean of the
scores, and siteCounts as the element-wise sums of the per-page counts. -/
theorem C5_aggregator_mean_and_sums (pages : List PageData)
    (scores : List Nat) (hne : pages ≠ [])
    (hs : pages.map (fun p => p.score) = scores.map some) :
    (aggregateSiteResults pages).siteScore =
      ⌊(scores.sum : ℚ) / (pages.length : ℚ) + 1 / 2⌋₊ ∧
    (aggregateSiteResults pages).siteCounts.critical =
      (pages.map (fun p => p.counts.critical)).sum ∧
    (aggregateSiteResults pages).siteCounts.warning =
      (pages.map (fun p => p.counts.warning)).sum ∧
    (aggregateSiteResults pages).siteCounts.info =
      (pages.map (fun p => p.counts.info)).sum ∧
    (aggregateSiteResults pages).siteCounts.total =
      (pages.map (fun p => p.counts.total)).sum := by
  have hlen : ¬(pages.length = 0) := by
    simpa [List.length_eq_zero] using hne
  have hscores : pages.map (fun p => scoreNum p.score) = scores := by
    have h2 := congrArg (List.map (fun o : Option Nat => o.getD 0)) hs
    simpa [List.map_map, Function.comp_def, scoreNum] using h2
  unfold aggregateSiteResults
  rw [if_neg hlen]
  dsimp only
  rw [foldl_countsAdd_eq, hscores]
  refine ⟨jsRoundDiv_eq_round _ _ (Nat.pos_of_ne_zero hlen), by simp, by simp,
    by simp, by simp⟩

/-- C5, witness: pages with scores 100, 50, 0 and critical counts
1, 2, 0 give siteScore 50 and siteCounts.critical 3. -/
theorem C5_witness :
    (aggregateSiteResults [pageA, pageB, pageC]).siteScore = 50 ∧
    (aggregateSiteResults [pageA, pageB, pageC]).siteCounts.critical = 3 := by
  have h := C5_aggregator_mean_and_sums [pageA, pageB, pageC] [100, 50, 0]
    (by decide) (by decide)
  refine ⟨by decide, ?_⟩
  rw [h.2.1]
  decide

/-- C8: on an empty list of successful pages the aggregator returns the
zero-valued report shell (it is a total function, so it cannot throw):
siteScore 0 and all four siteCounts fields 0. -/
theorem C8_empty_aggregate :
    (aggregateSiteResults []).siteScore = 0 ∧
    (aggregateSiteResults []).siteCounts.critical = 0 ∧
    (aggregateSiteResults []).siteCounts.warning = 0 ∧
    (aggregateSiteResults []).siteCounts.info = 0 ∧
    (aggregateSiteResults []).siteCounts.total = 0 := by
  decide

-- ── The issue-frequency map ──

theorem bump_any_iff (acc : List (String × Nat)) (t : String) :
    (acc.any (fun e => e.1 = t)) = true ↔ t ∈ acc.map Prod.fst := by
  rw [List.any_eq_true]
  constructor
  · rintro ⟨e, he, hd⟩
    exact List.mem_map.2 ⟨e, he, of_decide_eq_true hd⟩
  · intro h
    rcases List.mem_map.1 h with ⟨e, he, rfl⟩
    exact ⟨e, he, decide_eq_true rfl⟩

theorem bump_keys (acc : List (String × Nat)) (t : String) :
    (bump acc t).map Prod.fst =
      if t ∈ acc.map Prod.fst then acc.map Prod.fst
      else acc.map Prod.fst ++ [t] := by
  unfold bump
  by_cases h : t ∈ acc.map Prod.fst
  · rw [if_pos ((bump_any_iff acc t).2 h), if_pos h, List.map_map]
    refine List.map_congr_left ?_
    intro e _
    dsimp [Function.comp]
    split <;> rfl
  · rw [if_neg (fun hc => h ((bump_any_iff acc t).1 hc)), if_neg h,
      List.map_append]
    rfl

theorem foldl_bump_keys_nodup (ts : List String) :
    ∀ acc : List (String × Nat), ((acc.map Prod.fst).Nodup) →
      ((ts.foldl bump acc).map Prod.fst).Nodup := by
  induction ts with
  | nil => exact fun acc h => h
  | cons t rest ih =>
    intro acc h
    rw [List.foldl_cons]
    refine ih (bump acc t) ?_
    rw [bump_keys]
    by_cases ht : t ∈ acc.map Prod.fst
    · rwa [if_pos ht]
    · rw [if_neg ht]
      simp [List.nodup_append, h, ht]

theorem foldl_bump_val (ts : List String) :
    ∀ (acc : List (String × Nat)) (g : String → Nat),
      (∀ e ∈ acc, e.2 = g e.1) →
      (∀ x, x ∉ acc.map Prod.fst → g x = 0) →
      ∀ e ∈ ts.foldl bump acc, e.2 = g e.1 + ts.count e.1 := by
  induction ts with
  | nil =>
    intro acc g hval _ e he
    simpa using hval e he
  | cons t rest ih =>
    intro acc g hval h0 e he
    rw [List.foldl_cons] at he
    have hval2 : ∀ e ∈ bump acc t,
        e.2 = g e.1 + (if e.1 = t then 1 else 0) := by
      intro e he2
      unfold bump at he2
      split at he2
      · rcases List.mem_map.1 he2 with ⟨e0, he0, hmap⟩
        by_cases h1 : e0.1 = t
        · rw [if_pos h1] at hmap
          subst hmap
          dsimp only
          rw [if_pos h1, hval e0 he0]
        · rw [if_neg h1] at hmap
          subst hmap
          rw [if_neg h1, hval e0 he0, Nat.add_zero]
      · rename_i hcond
        have hnt : t ∉ acc.map Prod.fst :=
          fun hc => hcond ((bump_any_iff acc t).2 hc)
        rcases List.mem_append.1 he2 with he2 | he2
        · have hne : e.1 ≠ t := by
            intro hc
            exact hnt (hc ▸ List.mem_map_of_mem Prod.fst he2)
          rw [if_neg hne, hval e he2, Nat.add_zero]
        · rw [List.mem_singleton.1 he2]
          dsimp only
          rw [if_pos rfl, h0 t hnt]
    have h02 : ∀ x, x ∉ (bump acc t).map Prod.fst →
        g x + (if x = t then 1 else 0) = 0 := by
      intro x hx
      rw [bump_keys] at hx
      split at hx
      · rename_i hmem
        have hxt : ¬(x = t) := by
          intro hc
          rw [hc] at hx
          exact hx hmem
        rw [if_neg hxt, h0 x hx]
      · have hx1 : x ∉ acc.map Prod.fst :=
          fun hc => hx (List.mem_append.2 (Or.inl hc))
        have hx2 : x ≠ t :=
          fun hc => hx (List.mem_append.2 (Or.inr (by simp [hc])))
        rw [if_neg hx2, h0 x hx1]
    have hres := ih (bump acc t) (fun x => g x + if x = t then 1 else 0)
      hval2 h02 e he
    dsimp only at hres
    have hcnt : List.count e.1 (t :: rest) =
        rest.count e.1 + (if e.1 = t then 1 else 0) := by
      rw [List.count_cons]
      by_cases het : e.1 = t
      · simp [het]
      · have het2 : ¬(t = e.1) := fun h => het h.symm
        simp [het, het2]
    rw [hres, hcnt]
    omega

theorem foldl_bump_keys (ts : List String) :
    ∀ acc : List (String × Nat),
      (ts.foldl bump acc).map Prod.fst =
        acc.map Prod.fst ++
          encounterOrder
            (ts.filter (fun t => !((acc.map Prod.fst).contains t))) := by
  induction ts with
  | nil =>
    intro acc
    rw [List.filter_nil, encounterOrder, List.append_nil, List.foldl_nil]
  | cons t rest ih =>
    intro acc
    rw [List.foldl_cons, ih (bump acc t), bump_keys, List.filter_cons]
    by_cases ht : t ∈ acc.map Prod.fst
    · have hc : (acc.map Prod.fst).contains t = true :=
        List.elem_eq_true_of_mem ht
      rw [if_pos ht, if_neg (by rw [hc]; decide)]
    · have hc : (acc.map Prod.fst).contains t = false := by
        rcases hcont : (acc.map Prod.fst).contains t with _ | _
        · rfl
        · exact absurd (List.mem_of_elem_eq_true hcont) ht
      rw [if_neg ht, if_pos (by rw [hc]; decide), encounterOrder]
      rw [List.append_assoc, List.singleton_append]
      refine congrArg (fun l => acc.map Prod.fst ++ t :: encounterOrder l) ?_
      rw [List.filter_filter]
      refine List.filter_congr ?_
      intro x _
      by_cases h1 : x ∈ acc.map Prod.fst <;> by_cases h2 : x = t <;>
        simp [List.contains, h1, h2, List.mem_append]

theorem mem_encounterOrder_aux :
    ∀ (n : Nat) (l : List String), l.length ≤ n →
      ∀ x, (x ∈ encounterOrder l ↔ x ∈ l) := by
  intro n
  induction n with
  | zero =>
    intro l hl x
    have : l = [] := List.length_eq_zero.1 (Nat.le_zero.1 hl)
    subst this
    rw [encounterOrder]
  | succ n ih =>
    intro l hl x
    match l with
    | [] => rw [encounterOrder]
    | t :: rest =>
      have hrest : rest.length ≤ n := by
        have := hl
        simp only [List.length_cons] at this
        omega
      have hfil : (rest.filter (fun x => x != t)).length ≤ n :=
        le_trans (List.length_filter_le _ _) hrest
      rw [encounterOrder]
      simp only [List.mem_cons]
      constructor
      · rintro (rfl | h)
        · exact Or.inl rfl
        · exact Or.inr (List.mem_of_mem_filter ((ih _ hfil x).1 h))
      · rintro (rfl | h)
        · exact Or.inl rfl
        · by_cases hxt : x = t
          · exact Or.inl hxt
          · refine Or.inr ((ih _ hfil x).2 (List.mem_filter.2 ⟨h, ?_⟩))
            simp [hxt]

theorem mem_encounterOrder (l : List String) (x : String) :
    x ∈ encounterOrder l ↔ x ∈ l :=
  mem_encounterOrder_aux l.length l le_rfl x

theorem buildFreq_eq_types_fold (pages : List PageData) :
    buildFreq pages = (typesOf pages).foldl bump [] := by
  unfold buildFreq typesOf
  rw [List.foldl_flatten, List.foldl_map]
  have hfun : freqStep = fun (acc : List (String × Nat)) (p : PageData) =>
      (p.issues.map (fun i => i.type)).foldl bump acc := by
    funext acc p
    unfold freqStep
    rw [List.foldl_map]
  rw [hfun]

theorem pair_sublist_of_mem {γ : Type} {l : List γ} {a b : γ}
    (ha : a ∈ l) (hb : b ∈ l) (hne : a ≠ b) :
    List.Sublist [a, b] l ∨ List.Sublist [b, a] l := by
  induction l with
  | nil => cases ha
  | cons x t ih =>
    rcases eq_or_ne a x with rfl | hax
    · have hbt : b ∈ t :=
        (List.mem_cons.1 hb).resolve_left (fun h => hne h.symm)
      exact Or.inl (List.Sublist.cons₂ _ (List.singleton_sublist.2 hbt))
    · rcases eq_or_ne b x with rfl | hbx
      · have hat : a ∈ t := (List.mem_cons.1 ha).resolve_left hax
        exact Or.inr (List.Sublist.cons₂ _ (List.singleton_sublist.2 hat))
      · have hat : a ∈ t := (List.mem_cons.1 ha).resolve_left hax
        have hbt : b ∈ t := (List.mem_cons.1 hb).resolve_left hbx
        exact (ih hat hbt).imp (List.Sublist.cons x) (List.Sublist.cons x)

theorem not_pair_sublist_both {γ : Type} {l : List γ} {a b : γ}
    (hl : l.Nodup) (hne : a ≠ b) (h1 : List.Sublist [a, b] l)
    (h2 : List.Sublist [b, a] l) :
    False := by
  induction l with
  | nil => cases h1
  | cons x t ih =>
    have hxt : x ∉ t := (List.nodup_cons.1 hl).1
    have hnd : t.Nodup := (List.nodup_cons.1 hl).2
    cases h1 with
    | cons _ h1t =>
      cases h2 with
      | cons _ h2t => exact ih hnd h1t h2t
      | cons₂ _ h2t =>
        exact hxt (h1t.subset (by simp))
    | cons₂ _ h1t =>
      cases h2 with
      | cons _ h2t =>
        exact hxt (h2t.subset (by simp))
      | cons₂ _ h2t => exact hne rfl

theorem buildFreq_eq_encounterFreq (pages : List PageData) :
    buildFreq pages = encounterFreq pages := by
  have hkeys : (buildFreq pages).map Prod.fst =
      encounterOrder (typesOf pages) := by
    rw [buildFreq_eq_types_fold, foldl_bump_keys]
    simp [List.contains]
  have hval : ∀ e ∈ buildFreq pages, e.2 = (typesOf pages).count e.1 := by
    intro e he
    rw [buildFreq_eq_types_fold] at he
    have := foldl_bump_val (typesOf pages) [] (fun _ => 0)
      (by intro e h; cases h) (by intro x _; rfl) e he
    simpa using this
  unfold encounterFreq
  rw [← hkeys, List.map_map]
  have hid : ∀ e ∈ buildFreq pages,
      ((fun t => (t, (typesOf pages).count t)) ∘ Prod.fst) e = id e := by
    intro e he
    dsimp [Function.comp]
    rw [← hval e he]
  rw [List.map_congr_left hid, List.map_id]

/-- C7: for a nonempty list of successful pages, topIssues is exactly
the per-type frequency list in first-encounter order, stable-sorted
descending by count and truncated to the top 5 (the first conjunct
determines it completely, against the claim-side encounterFreq).  The
remaining conjuncts spell out the claimed reading: its length is the
minimum of 5 and the number of distinct issue types; it is sorted by
descending count; every entry counts the occurrences of its type across
all pages; entries with equal counts appear in first-encounter order;
and every issue type left out has a count no larger than that of any
entry kept. -/
theorem C7_top_issues (pages : List PageData) (hne : pages ≠ []) :
    (aggregateSiteResults pages).topIssues =
      some (((encounterFreq pages).insertionSort cntGe).take 5) ∧
    ((aggregateSiteResults pages).topIssues.getD []).length =
      min 5 (encounterFreq pages).length ∧
    List.Sorted cntGe ((aggregateSiteResults pages).topIssues.getD []) ∧
    (∀ e ∈ (aggregateSiteResults pages).topIssues.getD [],
      e.1 ∈ typesOf pages ∧ e.2 = (typesOf pages).count e.1) ∧
    (∀ a b : String × Nat,
      List.Sublist [a, b] ((aggregateSiteResults pages).topIssues.getD []) →
      a.2 = b.2 → List.Sublist [a.1, b.1] (encounterOrder (typesOf pages))) ∧
    (∀ t ∈ typesOf pages,
      (∀ e ∈ (aggregateSiteResults pages).topIssues.getD [], e.1 ≠ t) →
      ∀ e ∈ (aggregateSiteResults pages).topIssues.getD [],
        (typesOf pages).count t ≤ e.2) := by
  have hlen : ¬(pages.length = 0) := by
    simpa [List.length_eq_zero] using hne
  have hBF : buildFreq pages = encounterFreq pages :=
    buildFreq_eq_encounterFreq pages
  have hkeys : (buildFreq pages).map Prod.fst = encounterOrder (typesOf pages) := by
    rw [buildFreq_eq_types_fold, foldl_bump_keys]
    simp [List.contains]
  have hkeysnodup : ((buildFreq pages).map Prod.fst).Nodup := by
    rw [buildFreq_eq_types_fold]
    exact foldl_bump_keys_nodup _ [] (by simp)
  have hFnodup : (buildFreq pages).Nodup := hkeysnodup.of_map
  have hval : ∀ e ∈ buildFreq pages, e.2 = (typesOf pages).count e.1 := by
    intro e he
    rw [buildFreq_eq_types_fold] at he
    have := foldl_bump_val (typesOf pages) [] (fun _ => 0)
      (by intro e h; cases h) (by intro x _; rfl) e he
    simpa using this
  have hSnodup : ((buildFreq pages).insertionSort cntGe).Nodup :=
    (List.perm_insertionSort cntGe (buildFreq pages)).nodup_iff.2 hFnodup
  unfold aggregateSiteResults
  rw [if_neg hlen]
  dsimp only
  simp only [Option.getD_some]
  refine ⟨?_, ?_, ?_, ?_, ?_, ?_⟩
  · rw [hBF]
  · rw [List.length_take, List.length_insertionSort, hBF]
  · exact (List.sorted_insertionSort cntGe (buildFreq pages)).sublist
      (List.take_sublist _ _)
  · intro e he
    have heS : e ∈ (buildFreq pages).insertionSort cntGe :=
      List.mem_of_mem_take he
    have heF : e ∈ buildFreq pages := (List.mem_insertionSort cntGe).1 heS
    refine ⟨?_, hval e heF⟩
    have : e.1 ∈ (buildFreq pages).map Prod.fst :=
      List.mem_map_of_mem Prod.fst heF
    rw [hkeys] at this
    exact (mem_encounterOrder _ _).1 this
  · intro a b hsub heq
    have hsubS : List.Sublist [a, b] ((buildFreq pages).insertionSort cntGe) :=
      hsub.trans (List.take_sublist _ _)
    have haF : a ∈ buildFreq pages :=
      (List.mem_insertionSort cntGe).1 (hsubS.subset (by simp))
    have hbF : b ∈ buildFreq pages :=
      (List.mem_insertionSort cntGe).1 (hsubS.subset (by simp))
    have hne2 : a ≠ b := by
      intro hc
      subst hc
      exact List.nodup_iff_sublist.1 hSnodup a hsubS
    rcases pair_sublist_of_mem haF hbF hne2 with hF | hF
    · have := hF.map Prod.fst
      rwa [hkeys] at this
    · have hba : List.Sublist [b, a] ((buildFreq pages).insertionSort cntGe) :=
        List.pair_sublist_insertionSort (by exact le_of_eq heq) hF
      exact absurd hba (fun hba => not_pair_sublist_both hSnodup hne2 hsubS hba)
  · intro t ht hnotin e he
    have htF : (t, (typesOf pages).count t) ∈ buildFreq pages := by
      rw [hBF]
      exact List.mem_map_of_mem _ ((mem_encounterOrder _ _).2 ht)
    have htS : (t, (typesOf pages).count t) ∈
        (buildFreq pages).insertionSort cntGe :=
      (List.mem_insertionSort cntGe).2 htF
    rw [← List.take_append_drop 5 ((buildFreq pages).insertionSort cntGe)]
      at htS
    rcases List.mem_append.1 htS with htake | hdrop
    · exact absurd rfl (hnotin _ htake)
    · exact (List.sorted_insertionSort cntGe
        (buildFreq pages)).rel_of_mem_take_of_mem_drop he hdrop

/-- C7, witness: on the two-page example the aggregated topIssues equals
the take-5 of the stable descending sort of the first-encounter
frequency list. -/
theorem C7_witness :
    (aggregateSiteResults [pageI1, pageI2]).topIssues =
      some (((encounterFreq [pageI1, pageI2]).insertionSort cntGe).take 5) :=
  (C7_top_issues [pageI1, pageI2] (by decide)).1

-- ── Progress monotonicity ──

theorem bfsStep_events_mono {fetch : JsUrl → FetchRes} {base : List Char}
    {s : BfsState}
    (hp : (s.events.map Prod.fst).Pairwise (· ≤ ·))
    (hb : ∀ e ∈ s.events, e.1 ≤ s.discovered.length) :
    ((bfsStep fetch base s).events.map Prod.fst).Pairwise (· ≤ ·) ∧
    (∀ e ∈ (bfsStep fetch base s).events,
      e.1 ≤ (bfsStep fetch base s).discovered.length) := by
  obtain ⟨l, hl, _⟩ := bfsStep_discovered_decomp fetch base s
  have hgrow : s.discovered.length ≤ (bfsStep fetch base s).discovered.length := by
    rw [hl, List.length_append]
    omega
  have hev : (bfsStep fetch base s).events =
      s.events ++ [((bfsStep fetch base s).discovered.length,
        (bfsStep fetch base s).queue.length)] := rfl
  constructor
  · rw [hev, List.map_append, List.pairwise_append]
    refine ⟨hp, List.pairwise_singleton _ _, ?_⟩
    intro a ha c hc
    rcases List.mem_map.1 ha with ⟨e, he, rfl⟩
    rcases List.mem_map.1 hc with ⟨e2, he2, rfl⟩
    rw [List.mem_singleton.1 he2]
    exact le_trans (hb e he) hgrow
  · intro e he
    rw [hev] at he
    rcases List.mem_append.1 he with he | he
    · exact le_trans (hb e he) hgrow
    · rw [List.mem_singleton.1 he]

theorem bfsRun_events_mono {fetch : JsUrl → FetchRes} {base : List Char}
    (fuel : Nat) :
    ∀ {s : BfsState},
      (s.events.map Prod.fst).Pairwise (· ≤ ·) →
      (∀ e ∈ s.events, e.1 ≤ s.discovered.length) →
      ((bfsRun fetch base fuel s).events.map Prod.fst).Pairwise (· ≤ ·) := by
  induction fuel with
  | zero => exact fun hp _ => hp
  | succ fuel ih =>
    intro s hp hb
    rw [bfsRun]
    split
    · exact hp
    · obtain ⟨hp2, hb2⟩ := bfsStep_events_mono hp hb
      exact ih hp2 hb2

theorem progressCurrents_append (ph : String) (l1 l2 : List Event) :
    progressCurrents ph (l1 ++ l2) =
      progressCurrents ph l1 ++ progressCurrents ph l2 :=
  List.filterMap_append _ _ _

theorem progressCurrents_auditPair (ph : String) (u : JsUrl) (c n : Nat) :
    progressCurrents ph
        [Event.auditCall u, Event.progress "auditing" c n] =
      if ("auditing" : String) = ph then [c] else [] := by
  by_cases hph : ("auditing" : String) = ph <;>
    simp [progressCurrents, hph]

theorem progressCurrents_auditSingle (ph : String) (u : JsUrl) :
    progressCurrents ph [Event.auditCall u] = [] := by
  simp [progressCurrents]

theorem auditFold_events (audit : JsUrl → AuditRes) (n : Nat) (ph : String)
    (urls : List JsUrl) :
    ∀ acc : List PageOutcome × List Event × Nat,
      (progressCurrents ph acc.2.1).Pairwise (· ≤ ·) →
      (∀ c ∈ progressCurrents ph acc.2.1, c ≤ acc.2.2) →
      (progressCurrents ph
        (urls.foldl (auditStep audit n) acc).2.1).Pairwise (· ≤ ·) ∧
      (∀ c ∈ progressCurrents ph (urls.foldl (auditStep audit n) acc).2.1,
        c ≤ (urls.foldl (auditStep audit n) acc).2.2) := by
  induction urls with
  | nil => exact fun acc hp hb => ⟨hp, hb⟩
  | cons u t ih =>
    intro acc hp hb
    rw [List.foldl_cons]
    have key : ((auditStep audit n acc u).2.1 =
          acc.2.1 ++ [Event.auditCall u] ∧
          (auditStep audit n acc u).2.2 = acc.2.2) ∨
        ((auditStep audit n acc u).2.1 = acc.2.1 ++ [Event.auditCall u,
            Event.progress "auditing" (acc.2.2 + 1) n] ∧
          (auditStep audit n acc u).2.2 = acc.2.2 + 1) := by
      unfold auditStep
      cases audit u
      · exact Or.inr ⟨rfl, rfl⟩
      · exact Or.inr ⟨rfl, rfl⟩
      · exact Or.inl ⟨rfl, rfl⟩
    rcases key with ⟨hev, hk⟩ | ⟨hev, hk⟩
    · refine ih _ ?_ ?_
      · rw [hev, progressCurrents_append, progressCurrents_auditSingle,
          List.append_nil]
        exact hp
      · rw [hev, hk, progressCurrents_append, progressCurrents_auditSingle,
          List.append_nil]
        exact hb
    · have hpair := progressCurrents_auditPair ph u (acc.2.2 + 1) n
      refine ih _ ?_ ?_
      · rw [hev, progressCurrents_append, hpair, List.pairwise_append]
        refine ⟨hp, ?_, ?_⟩
        · split
          · exact List.pairwise_singleton _ _
          · exact List.Pairwise.nil
        · intro a ha c hc
          have hale : a ≤ acc.2.2 := hb a ha
          split at hc
          · rw [List.mem_singleton.1 hc]
            omega
          · cases hc
      · rw [hev, hk, progressCurrents_append, hpair]
        intro c hc
        rcases List.mem_append.1 hc with hc | hc
        · exact le_trans (hb c hc) (by omega)
        · split at hc
          · rw [List.mem_singleton.1 hc]
          · cases hc

theorem auditFold_events_other (audit : JsUrl → AuditRes) (n : Nat)
    (ph : String) (hph : ("auditing" : String) ≠ ph) (urls : List JsUrl) :
    ∀ acc : List PageOutcome × List Event × Nat,
      progressCurrents ph acc.2.1 = [] →
      progressCurrents ph (urls.foldl (auditStep audit n) acc).2.1 = [] := by
  induction urls with
  | nil => exact fun acc h => h
  | cons u t ih =>
    intro acc h
    rw [List.foldl_cons]
    have key : ((auditStep audit n acc u).2.1 =
          acc.2.1 ++ [Event.auditCall u]) ∨
        ((auditStep audit n acc u).2.1 = acc.2.1 ++ [Event.auditCall u,
            Event.progress "auditing" (acc.2.2 + 1) n]) := by
      unfold auditStep
      cases audit u
      · exact Or.inr rfl
      · exact Or.inr rfl
      · exact Or.inl rfl
    rcases key with hev | hev
    · refine ih _ ?_
      rw [hev, progressCurrents_append, progressCurrents_auditSingle,
        List.append_nil, h]
    · refine ih _ ?_
      rw [hev, progressCurrents_append, progressCurrents_auditPair,
        if_neg hph, List.append_nil, h]

theorem progressCurrents_discoveryMap (ph : String) (l : List (Nat × Nat)) :
    progressCurrents ph
        (l.map (fun e => Event.progress "discovering" e.1 e.2)) =
      if ("discovering" : String) = ph then l.map Prod.fst else [] := by
  by_cases hph : ("discovering" : String) = ph
  · rw [if_pos hph]
    unfold progressCurrents
    rw [List.filterMap_map]
    rw [List.filterMap_eq_map_iff_forall_eq_some.2 ?_]
    intro e
    simp [Function.comp, hph]
  · rw [if_neg hph]
    unfold progressCurrents
    rw [List.filterMap_map]
    rw [List.filterMap_eq_nil_iff.2 ?_]
    intro e _
    simp [Function.comp, hph]

theorem discovery_trace_mono (fetch : JsUrl → FetchRes) (startUrl : JsUrl)
    (base : List Char) (ph : String) :
    (progressCurrents ph
      ([Event.discoveryStarted, Event.progress "discovering" 0 0] ++
        (discoverUrls fetch startUrl base).2.map
          (fun e => Event.progress "discovering" e.1 e.2))).Pairwise (· ≤ ·) ∧
    (("discovering" : String) ≠ ph →
      progressCurrents ph
        ([Event.discoveryStarted, Event.progress "discovering" 0 0] ++
          (discoverUrls fetch startUrl base).2.map
            (fun e => Event.progress "discovering" e.1 e.2)) = []) := by
  have hdf : (((discoverUrls fetch startUrl base).2).map
      Prod.fst).Pairwise (· ≤ ·) := by
    unfold discoverUrls
    dsimp only
    apply bfsRun_events_mono
    · exact List.Pairwise.nil
    · intro e he
      cases he
  have hseed : progressCurrents ph
      [Event.discoveryStarted, Event.progress "discovering" 0 0] =
      if ("discovering" : String) = ph then [0] else [] := by
    by_cases hph : ("discovering" : String) = ph <;>
      simp [progressCurrents, hph]
  rw [progressCurrents_append, progressCurrents_discoveryMap, hseed]
  constructor
  · by_cases hph : ("discovering" : String) = ph
    · rw [if_pos hph, if_pos hph, List.singleton_append]
      exact List.Pairwise.cons (fun x _ => Nat.zero_le x) hdf
    · rw [if_neg hph, if_neg hph]
      exact List.Pairwise.nil
  · intro hph
    rw [if_neg hph, if_neg hph]
    rfl

theorem audit_trace_mono (audit : JsUrl → AuditRes) (allUrls : List JsUrl)
    (ph : String) :
    (progressCurrents ph
      ([Event.progress "auditing" 0 allUrls.length] ++
        (auditPhase audit allUrls).2)).Pairwise (· ≤ ·) ∧
    (("auditing" : String) ≠ ph →
      progressCurrents ph
        ([Event.progress "auditing" 0 allUrls.length] ++
          (auditPhase audit allUrls).2) = []) := by
  have hseed : progressCurrents ph
      [Event.progress "auditing" 0 allUrls.length] =
      if ("auditing" : String) = ph then [0] else [] := by
    by_cases hph : ("auditing" : String) = ph <;>
      simp [progressCurrents, hph]
  have hap : (auditPhase audit allUrls).2 =
      (allUrls.foldl (auditStep audit allUrls.length) ([], [], 0)).2.1 := rfl
  rw [progressCurrents_append, hseed, hap]
  constructor
  · have hmono := (auditFold_events audit allUrls.length ph allUrls
      ([], [], 0) (by simp [progressCurrents]) (by simp [progressCurrents])).1
    by_cases hph : ("auditing" : String) = ph
    · rw [if_pos hph, List.singleton_append]
      exact List.Pairwise.cons (fun x _ => Nat.zero_le x) hmono
    · rw [if_neg hph]
      exact hmono
  · intro hph
    rw [if_neg hph,
      auditFold_events_other audit allUrls.length ph hph allUrls ([], [], 0)
        (by simp [progressCurrents])]
    rfl

/-- C9: within each phase, the current values passed to successive
progress callbacks of one crawl are monotonically non-decreasing — the
discovery phase reports the discovered-set size once per BFS level and
that size only grows, and the audit phase reports the completed-audit
counter which is incremented immediately before each report. -/
theorem C9_progress_monotone (env : CrawlEnv) (parsed : Option JsUrl)
    (ph : String) :
    (progressCurrents ph (crawlSite env parsed).2).Pairwise (· ≤ ·) := by
  match parsed with
  | none =>
    rw [crawlSite]
    exact List.Pairwise.nil
  | some su =>
    rw [crawlSite]
    match hpr : env.probe with
    | .abortTimeout => exact List.Pairwise.nil
    | .netError m => exact List.Pairwise.nil
    | .ok status =>
      dsimp only
      split
      · exact List.Pairwise.nil
      · split
        · exact (discovery_trace_mono env.fetch (normalizeUrl su) su.host ph).1
        · rw [List.append_assoc, progressCurrents_append,
            List.pairwise_append]
          refine ⟨(discovery_trace_mono env.fetch (normalizeUrl su)
              su.host ph).1,
            (audit_trace_mono env.audit
              (discoverUrls env.fetch (normalizeUrl su) su.host).1 ph).1, ?_⟩
          intro a ha b hb
          by_cases hph : ("discovering" : String) = ph
          · have hph2 : ("auditing" : String) ≠ ph := by
              rw [← hph]
              decide
            rw [(audit_trace_mono env.audit
              (discoverUrls env.fetch (normalizeUrl su) su.host).1 ph).2 hph2]
              at hb
            cases hb
          · rw [(discovery_trace_mono env.fetch (normalizeUrl su)
              su.host ph).2 hph] at ha
            cases ha

-- ── The audit phase when every audit fails ──

theorem auditStep_fst (audit : JsUrl → AuditRes) (n : Nat)
    (acc : List PageOutcome × List Event × Nat) (u : JsUrl) :
    (auditStep audit n acc u).1 = acc.1 ++ [auditOutcome audit u] := by
  unfold auditStep auditOutcome
  cases audit u <;> rfl

theorem auditFold_results (audit : JsUrl → AuditRes) (n : Nat)
    (urls : List JsUrl) :
    ∀ acc : List PageOutcome × List Event × Nat,
      (urls.foldl (auditStep audit n) acc).1 =
        acc.1 ++ urls.map (auditOutcome audit) := by
  induction urls with
  | nil =>
    intro acc
    rw [List.foldl_nil, List.map_nil, List.append_nil]
  | cons u t ih =>
    intro acc
    rw [List.foldl_cons, ih, List.map_cons]
    have h1 : (auditStep audit n acc u).1 = acc.1 ++ [auditOutcome audit u] :=
      auditStep_fst audit n acc u
    rw [h1, List.append_assoc, List.singleton_append]

theorem auditPhase_results (audit : JsUrl → AuditRes) (urls : List JsUrl) :
    (auditPhase audit urls).1 = urls.map (auditOutcome audit) := by
  unfold auditPhase
  dsimp only
  rw [auditFold_results]
  rfl

theorem successesOf_all_fail (audit : JsUrl → AuditRes)
    (haud : ∀ u, (∃ m, audit u = AuditRes.errorResult m) ∨
      (∃ m, audit u = AuditRes.thrown m)) (urls : List JsUrl) :
    successesOf (urls.map (auditOutcome audit)) = [] := by
  unfold successesOf
  rw [List.filterMap_eq_nil_iff]
  intro o ho
  rcases List.mem_map.1 ho with ⟨u, _, rfl⟩
  unfold auditOutcome
  rcases haud u with ⟨m, hm⟩ | ⟨m, hm⟩ <;> rw [hm]

theorem failuresOf_all_fail (audit : JsUrl → AuditRes)
    (haud : ∀ u, (∃ m, audit u = AuditRes.errorResult m) ∨
      (∃ m, audit u = AuditRes.thrown m)) :
    ∀ urls : List JsUrl,
      (failuresOf (urls.map (auditOutcome audit)) urls).length =
        urls.length := by
  intro urls
  induction urls with
  | nil => rfl
  | cons u t ih =>
    unfold failuresOf at ih ⊢
    rw [List.map_cons, List.zip_cons_cons, List.filterMap_cons]
    rcases haud u with ⟨m, hm⟩ | ⟨m, hm⟩
    · rw [show auditOutcome audit u = PageOutcome.errorWithUrl u m by
        unfold auditOutcome; rw [hm]]
      rw [List.length_cons, ih]
      exact (List.length_cons u t).symm
    · rw [show auditOutcome audit u = PageOutcome.errorCaught m by
        unfold auditOutcome; rw [hm]]
      rw [List.length_cons, ih]
      exact (List.length_cons u t).symm

/-- C10: when the probe succeeds and every audit returns or throws an
error, crawlSite still returns a report (not a fatal error) with
siteScore 0, zero siteCounts, zero successfulPages, failedPages equal to
the discovered count (which is positive), while healthBreakdown and
topIssues are absent (undefined): the aggregator empty-input shell does
not carry them. -/
theorem C10_all_audits_fail (env : CrawlEnv) (su : JsUrl) (status : Nat)
    (hpr : env.probe = ProbeRes.ok status)
    (hst : 200 ≤ status ∧ status ≤ 299)
    (haud : ∀ u, (∃ m, env.audit u = AuditRes.errorResult m) ∨
      (∃ m, env.audit u = AuditRes.thrown m)) :
    (reportOf (crawlSite env (some su)).1).isSome = true ∧
    ((reportOf (crawlSite env (some su)).1).getD emptyReport).siteScore = 0 ∧
    ((reportOf (crawlSite env (some su)).1).getD emptyReport).siteCounts =
      { critical := 0, warning := 0, info := 0, total := 0 } ∧
    ((reportOf (crawlSite env (some su)).1).getD
      emptyReport).successfulPages = 0 ∧
    0 < ((reportOf (crawlSite env (some su)).1).getD emptyReport).totalPages ∧
    ((reportOf (crawlSite env (some su)).1).getD emptyReport).failedPages =
      ((reportOf (crawlSite env (some su)).1).getD emptyReport).totalPages ∧
    ((reportOf (crawlSite env (some su)).1).getD
      emptyReport).healthBreakdown = none ∧
    ((reportOf (crawlSite env (some su)).1).getD emptyReport).topIssues =
      none := by
  rw [crawlSite, hpr]
  dsimp only
  rw [if_neg (not_not_intro hst)]
  rcases discoverUrls_head env.fetch (normalizeUrl su) su.host with ⟨l, hl⟩
  have hne0 : ¬((discoverUrls env.fetch
      (normalizeUrl su) su.host).1.length = 0) := by
    rw [hl]
    simp
  rw [if_neg hne0]
  have hres : (auditPhase env.audit
      (discoverUrls env.fetch (normalizeUrl su) su.host).1).1 =
      (discoverUrls env.fetch (normalizeUrl su) su.host).1.map
        (auditOutcome env.audit) :=
    auditPhase_results _ _
  have hsucc := successesOf_all_fail env.audit haud
    (discoverUrls env.fetch (normalizeUrl su) su.host).1
  have hfail := failuresOf_all_fail env.audit haud
    (discoverUrls env.fetch (normalizeUrl su) su.host).1
  dsimp only [reportOf, Option.getD_some, Option.isSome_some]
  refine ⟨rfl, ?_, ?_, ?_, ?_, ?_, ?_, ?_⟩
  · rw [hres, hsucc]
    rfl
  · rw [hres, hsucc]
    rfl
  · rw [hres, hsucc]
    rfl
  · rw [hl]
    simp
  · rw [hres, hfail]
  · rw [hres, hsucc]
    rfl
  · rw [hres, hsucc]
    rfl

/-- C10, witness: a crawl of https://example.com whose every audit call
fails returns a report whose siteScore is zero. -/
theorem C10_witness :
    ((reportOf (crawlSite envAllFail (some exHome)).1).getD
      emptyReport).siteScore = 0 :=
  (C10_all_audits_fail envAllFail exHome 200 rfl (by decide)
    (fun u => Or.inl ⟨"HTTP 500", rfl⟩)).2.1
